/-
Verification of the release-synchronization pipeline of
`github_auto_download` (src/script.py) against its specification.

Strings are modelled as `List Char` so that substring containment
(Python's `in` operator) is an executable Boolean function.  The
filesystem cache directory is modelled as the set (list) of file names
present in it; the network is a `World` record of pure functions giving
the HTTP result of each request.  Fallible Python code (uncaught
exceptions) is modelled with `Except PyError`.
-/
import Mathlib

namespace GithubAutoDownload

/-- Python strings, modelled as lists of characters. -/
abbrev Str := List Char

/-- Convenience conversion from Lean string literals. -/
def chars (s : String) : Str := s.data

/-- Python's `str.lower()`. -/
def lowerStr (s : Str) : Str := s.map Char.toLower

/-- Python's substring containment `needle in hay`. -/
def isSubOf (needle : Str) : Str → Bool
  | [] => needle.isEmpty
  | c :: cs => needle.isPrefixOf (c :: cs) || isSubOf needle cs

/-- A release asset: `{"name": ..., "browser_download_url": ...}` as used
by `find_best_match` and `process_releases`. -/
structure Asset where
  name : Str
  browser_download_url : Str
deriving DecidableEq

/-- The relevant part of the GitHub "latest release" JSON payload:
`tag_name` and the `assets` list. -/
structure ReleaseData where
  tag_name : Str
  assets : List Asset
deriving DecidableEq

/-- One entry of the `releases` list of `config.yaml`: `name`, `repo`,
optional `version`, and the raw `file_list` strings (`"keywords:suffix"`). -/
structure Release where
  name : Str
  repo : Str
  version : Option Str
  file_list : List Str
deriving DecidableEq

/-- The loaded configuration document. -/
structure Config where
  releases : List Release
deriving DecidableEq

/-- Result of one `requests.get` call against the release-metadata API:
either a response carrying a status code and (for status 200) the parsed
JSON, or a transport-level exception raised by `requests`. -/
inductive HttpResult where
  | response (status : Nat) (payload : ReleaseData)
  | transportError
deriving DecidableEq

/-- The external world a run executes against: release-metadata responses
per repository, download status per asset URL, whether a staged archive
extracts without raising, the initial contents of the `.cache` directory,
and whether the three WebDAV environment variables are all set. -/
structure World where
  http : Str → HttpResult
  downloadStatus : Str → Nat
  extractOk : Str → Bool
  initialCache : List Str
  credsPresent : Bool

/-- Uncaught Python exceptions that can escape the pipeline code. -/
inductive PyError where
  | transport      -- a `requests` exception escaping `get_latest_releases`
  | fileNotFound   -- `Path.unlink()` on a missing file in `process_releases`
  | valueError     -- unpacking `file_entry.split(":")` into two names fails
deriving DecidableEq

/-- Observable side effects of a run, in order of occurrence. -/
inductive Action where
  | fetchFailedMsg (repo : Str)                         -- "Failed to fetch release info"
  | download (url : Str) (status : Nat)                 -- a `download_file` call
  | extract (file : Str) (dest : Str) (ok : Bool)       -- an `extract_file` call
  | noMatchMsg (name : Str)                             -- "No matching file found"
  | writeConfig                                         -- rewrite of config.yaml
  | nothingToDoMsg                                      -- "No new versions available."
  | proceedAnywayMsg                                    -- "No updates found, but ..."
  | uploadDir                                           -- `upload_directory(client)` invoked
  | credsMissingMsg                                     -- "WebDAV credentials not found"
deriving DecidableEq

/- ### Asset matcher (`find_best_match`, script.py lines 115-126) -/

/-- `sum(1 for keyword in keywords if keyword in asset["name"].lower())`. -/
def matchScore (keywords : List Str) (name : Str) : Nat :=
  keywords.countP (fun k => isSubOf k (lowerStr name))

/-- The loop of `find_best_match`: fold over the assets keeping the
current best match and best score, replacing only on a strictly greater
score. -/
def fbmAux (keywords : List Str) : List Asset → Option Asset → Nat → Option Asset
  | [], best, _ => best
  | a :: rest, best, bestScore =>
    if bestScore < matchScore keywords a.name then
      fbmAux keywords rest (some a) (matchScore keywords a.name)
    else
      fbmAux keywords rest best bestScore

/-- `find_best_match(assets, keywords)` from script.py. -/
def find_best_match (assets : List Asset) (keywords : List Str) : Option Asset :=
  fbmAux keywords assets none 0

/-- The greatest score over a list of assets (0 when empty). -/
def maxScoreOf (keywords : List Str) : List Asset → Nat
  | [] => 0
  | a :: rest => max (matchScore keywords a.name) (maxScoreOf keywords rest)

/-- Modelled from the spec: the case-insensitive score the specification
describes for the asset matcher, `|{k in keywords : k is a substring of
filename (case-insensitive)}|`, i.e. both the keyword and the filename
are lowercased before the containment test.  The source lowercases only
the filename; this definition exists to compare the two. -/
def specCiScore (keywords : List Str) (name : Str) : Nat :=
  keywords.countP (fun k => isSubOf (lowerStr k) (lowerStr name))

/- ### Architecture classifier (`get_architecture_name`, lines 32-50) -/

/-- The ordered alias table of `get_architecture_name`. -/
def arch_map : List (Str × List Str) :=
  [ (chars "x64",   [chars "x86_64", chars "x64", chars "amd64"]),
    (chars "arm64", [chars "aarch64", chars "arm64", chars "armv8"]),
    (chars "armhf", [chars "arm", chars "armv7", chars "armv6"]),
    (chars "x86",   [chars "i386", chars "i686"]),
    (chars "riscv", [chars "riscv64"]),
    (chars "ppc64", [chars "ppc64le", chars "powerpc64le"]),
    (chars "s390",  [chars "s390x"]) ]

/-- `any(alias in file_name for alias in aliases)` for one table entry. -/
def archMatches (file_name : Str) (entry : Str × List Str) : Bool :=
  entry.2.any (fun al => isSubOf al file_name)

/-- The lookup loop over the alias table. -/
def archLookup (file_name : Str) : List (Str × List Str) → Str
  | [] => chars "default"
  | entry :: rest =>
    if archMatches file_name entry then entry.1 else archLookup file_name rest

/-- `get_architecture_name(file_name)` from script.py. -/
def get_architecture_name (file_name : Str) : Str :=
  archLookup file_name arch_map

/- ### Release fetcher (`get_latest_releases`, lines 53-65) -/

/-- The value `get_latest_releases` stores for a repository: the parsed
payload on status 200, `None` otherwise; a transport error raises. -/
def fetchVal (w : World) (repo : Str) : Option ReleaseData :=
  match w.http repo with
  | .response s d => if s = 200 then some d else none
  | .transportError => none

/-- The loop of `get_latest_releases`: one `requests.get` per configured
release, in order; a non-200 status prints a failure message and stores
`None`; a transport exception escapes immediately. -/
def getLatestAux (w : World) : List Release →
    Except PyError (List (Str × Option ReleaseData) × List Action)
  | [] => .ok ([], [])
  | rel :: rest =>
    match w.http rel.repo with
    | .response s d =>
      match getLatestAux w rest with
      | .ok (m, acts) =>
        if s = 200 then .ok ((rel.repo, some d) :: m, acts)
        else .ok ((rel.repo, none) :: m, .fetchFailedMsg rel.repo :: acts)
      | .error e => .error e
    | .transportError => .error .transport

/-- `get_latest_releases(config)` from script.py, returning the
association list standing for the `latest_releases` dict together with
the failure messages printed along the way. -/
def get_latest_releases (w : World) (config : Config) :
    Except PyError (List (Str × Option ReleaseData) × List Action) :=
  getLatestAux w config.releases

/-- Lookup in the `latest_releases` dict (`latest_releases[repo]`).
Every repository the dict is later asked for was inserted (the same
`config["releases"]` list drives both loops), and duplicate insertions
for a repeated repository store identical values, so first-binding
lookup models the Python dict and the missing-key fallback (`KeyError`
in Python) is never reached. -/
def dictGet : List (Str × Option ReleaseData) → Str → Option ReleaseData
  | [], _ => none
  | p :: rest, repo => if p.1 = repo then p.2 else dictGet rest repo

/- ### Version differ (`check_and_update_versions`, lines 68-112) -/

/-- `latest_version != current_version`: exact string comparison, with a
missing recorded version (Python `None`) always counting as different. -/
def versionDiffers : Option Str → Str → Bool
  | none, _ => true
  | some v, tag => decide (¬ tag = v)

/-- The body of the `check_and_update_versions` loop for one release:
returns the (possibly version-updated) release and whether a new version
was detected for it. -/
def checkOne (latest : Str → Option ReleaseData) (update : Bool) (rel : Release) :
    Release × Bool :=
  match latest rel.repo with
  | none => (rel, false)
  | some d =>
    if versionDiffers rel.version d.tag_name then
      ((if update then { rel with version := some d.tag_name } else rel), true)
    else (rel, false)

/-- The `check_and_update_versions` loop over all releases: updated
release list, `has_updates` flag, and `updated_projects` names. -/
def checkAux (latest : Str → Option ReleaseData) (update : Bool) :
    List Release → List Release × Bool × List Str
  | [] => ([], false, [])
  | rel :: rest =>
    let head := checkOne latest update rel
    let tail := checkAux latest update rest
    (head.1 :: tail.1, head.2 || tail.2.1,
     (if head.2 then [rel.name] else []) ++ tail.2.2)

/-- Result of `check_and_update_versions`: the in-place-mutated release
list, the returned tuple, and whether the configuration file was
rewritten (`update and has_updates`). -/
structure CheckResult where
  releases : List Release
  has_updates : Bool
  updated_projects : List Str
  actions : List Action
deriving DecidableEq

/-- `check_and_update_versions(config, latest_releases, update=...)`. -/
def check_and_update_versions (latest : Str → Option ReleaseData) (update : Bool)
    (config : Config) : CheckResult :=
  let t := checkAux latest update config.releases
  { releases := t.1, has_updates := t.2.1, updated_projects := t.2.2,
    actions := if update && t.2.1 then [.writeConfig] else [] }

/- ### Fetch and materialize (`process_releases`, lines 169-201, with
`download_file` lines 129-139 and `extract_file` lines 142-166) -/

/-- Python's `str.split(sep)` (single-character separator). -/
def pySplitAux (sep : Char) : List Char → List Char → List Str
  | acc, [] => [acc.reverse]
  | acc, c :: cs =>
    if c = sep then acc.reverse :: pySplitAux sep [] cs
    else pySplitAux sep (c :: acc) cs

/-- Python's `s.split(sep)`. -/
def pySplit (sep : Char) (s : Str) : List Str := pySplitAux sep [] s

/-- Creating a file in the cache directory (idempotent overwrite). -/
def cacheAdd (name : Str) (c : List Str) : List Str :=
  if name ∈ c then c else name :: c

/-- Removing a file from the cache directory. -/
def cacheRemove (name : Str) (c : List Str) : List Str :=
  c.filter (fun x => !decide (x = name))

/-- `download_file(url, save_path)`: on status 200 the file is written
into the cache; any other status only prints a message.  Never raises. -/
def download_file (w : World) (url : Str) (saveName : Str) (cache : List Str) :
    List Str × Action :=
  if w.downloadStatus url = 200 then (cacheAdd saveName cache, .download url 200)
  else (cache, .download url (w.downloadStatus url))

/-- `extract_file(file_path, extract_to)`: the whole body is inside
`try/except`, so it never raises; the recorded flag tells whether the
extract-or-copy succeeded (the staged file must exist and the archive be
readable). -/
def extract_file (w : World) (cache : List Str) (fileName dest : Str) : Action :=
  .extract fileName dest (decide (fileName ∈ cache) && w.extractOk fileName)

/-- One `file_entry` iteration of the inner `process_releases` loop:
split the entry on `":"`, lowercase the comma-separated keywords, select
the best asset, and if one matched: download, extract, then
`temp_file.unlink()` — which raises `FileNotFoundError` when the staged
file does not exist (e.g. after a failed download with an empty cache). -/
def processEntry (w : World) (relName : Str) (assets : List Asset)
    (cache : List Str) (entry : Str) : Except PyError (List Str × List Action) :=
  match pySplit ':' entry with
  | [file_keywords, save_path_suffix] =>
    let keywords := (pySplit ',' file_keywords).map lowerStr
    let save_path := chars "bin/" ++ save_path_suffix
    match find_best_match assets keywords with
    | some best =>
      let dl := download_file w best.browser_download_url best.name cache
      let eAct := extract_file w dl.1 best.name save_path
      if best.name ∈ dl.1 then
        .ok (cacheRemove best.name dl.1, [dl.2, eAct])
      else .error .fileNotFound
    | none => .ok (cache, [.noMatchMsg relName])
  | _ => .error .valueError

/-- The inner loop of `process_releases` over a release's `file_list`. -/
def processEntries (w : World) (relName : Str) (assets : List Asset) :
    List Str → List Str → Except PyError (List Str × List Action)
  | cache, [] => .ok (cache, [])
  | cache, e :: es =>
    match processEntry w relName assets cache e with
    | .ok r1 =>
      match processEntries w relName assets r1.1 es with
      | .ok r2 => .ok (r2.1, r1.2 ++ r2.2)
      | .error err => .error err
    | .error err => .error err

/-- One outer-loop iteration of `process_releases`: a release whose
fetch produced `None` is skipped entirely. -/
def processRelease (w : World) (latest : Str → Option ReleaseData)
    (cache : List Str) (rel : Release) : Except PyError (List Str × List Action) :=
  match latest rel.repo with
  | none => .ok (cache, [])
  | some d => processEntries w rel.name d.assets cache rel.file_list

/-- The outer loop of `process_releases` over all releases. -/
def processReleasesAux (w : World) (latest : Str → Option ReleaseData) :
    List Str → List Release → Except PyError (List Str × List Action)
  | cache, [] => .ok (cache, [])
  | cache, rel :: rest =>
    match processRelease w latest cache rel with
    | .ok r1 =>
      match processReleasesAux w latest r1.1 rest with
      | .ok r2 => .ok (r2.1, r1.2 ++ r2.2)
      | .error err => .error err
    | .error err => .error err

/-- `process_releases(config, latest_releases, updated_projects)`.  The
`updated_projects` argument is unused by the source (the skip of
non-updated projects is commented out): every release is processed. -/
def process_releases (w : World) (latest : Str → Option ReleaseData)
    (cache : List Str) (config : Config) : Except PyError (List Str × List Action) :=
  processReleasesAux w latest cache config.releases

/- ### Orchestrator (`main`, lines 220-280) -/

/-- The five argparse flags. -/
structure Args where
  update_config : Bool
  download : Bool
  upload : Bool
  all : Bool
  force : Bool
deriving DecidableEq

/-- `if not any([update_config, download, upload, all]): args.all = True`. -/
def effectiveArgs (a : Args) : Args :=
  if !(a.update_config || a.download || a.upload || a.all) then { a with all := true }
  else a

/-- Outcome of a run that did not raise. -/
structure RunResult where
  finalReleases : List Release
  has_updates : Bool
  updated_projects : List Str
  earlyExit : Bool
  trace : List Action
deriving DecidableEq

/-- The part of `main` after `get_latest_releases` returned: version
check (rewriting the config when requested and needed), early exit when
nothing changed and neither `--force` nor `--all` is in effect, then the
download stage and the upload stage. -/
def runAfterFetch (w : World) (config : Config) (args : Args)
    (m : List (Str × Option ReleaseData)) (fetchActs : List Action) :
    Except PyError RunResult :=
  let latest := dictGet m
  let cr := check_and_update_versions latest (args.update_config || args.all) config
  let acts0 := fetchActs ++ cr.actions
  if !cr.has_updates && !(args.force || args.all) then
    .ok { finalReleases := cr.releases, has_updates := cr.has_updates,
          updated_projects := cr.updated_projects, earlyExit := true,
          trace := acts0 ++ [.nothingToDoMsg] }
  else
    let acts1 := acts0 ++ (if !cr.has_updates then [.proceedAnywayMsg] else [])
    match (if args.download || args.all then
             process_releases w latest w.initialCache { releases := cr.releases }
           else .ok (w.initialCache, [])) with
    | .error e => .error e
    | .ok dl =>
      let uActs := if args.upload || args.all then
          (if w.credsPresent then [.uploadDir] else [.credsMissingMsg])
        else []
      .ok { finalReleases := cr.releases, has_updates := cr.has_updates,
            updated_projects := cr.updated_projects, earlyExit := false,
            trace := acts1 ++ dl.2 ++ uActs }

/-- `main()` from script.py, as a function of the external world, the
loaded configuration and the parsed arguments.  `main` wraps everything
in `try/except` that re-raises, so an uncaught exception still aborts
the process (`.error`). -/
def mainRun (w : World) (config : Config) (a : Args) : Except PyError RunResult :=
  let args := effectiveArgs a
  match get_latest_releases w config with
  | .error e => .error e
  | .ok mf => runAfterFetch w config args mf.1 mf.2

/-- Every configured repository answers with status 200 and a tag equal
to the recorded version (the round-trip hypothesis of the spec). -/
def upToDateB (w : World) (c : Config) : Bool :=
  c.releases.all (fun rel =>
    match w.http rel.repo with
    | .response s d => decide (s = 200) && decide (rel.version = some d.tag_name)
    | .transportError => false)

/-- Actions that the download stage (`process_releases`) can emit. -/
def isProcessAct : Action → Bool
  | .download _ _ => true
  | .extract _ _ _ => true
  | .noMatchMsg _ => true
  | _ => false

/-- Actions that the fetch stage (`get_latest_releases`) can emit. -/
def isFetchAct : Action → Bool
  | .fetchFailedMsg _ => true
  | _ => false

/- ### Concrete fixtures used by counterexamples and witnesses -/

/-- A target recorded at version v1 whose single FileSpec keyword
matches no asset of the new release. -/
def rel1 : Release :=
  { name := chars "tool", repo := chars "r", version := some (chars "v1"),
    file_list := [chars "zzz:sub"] }

/-- Configuration containing only `rel1`. -/
def config1 : Config := { releases := [rel1] }

/-- Upstream release v2 with an asset not matching the keyword zzz. -/
def relData1 : ReleaseData :=
  { tag_name := chars "v2",
    assets := [{ name := chars "toolfile", browser_download_url := chars "u1" }] }

/-- World for the C1 counterexample: fetch succeeds with a new tag. -/
def world1 : World :=
  { http := fun rp => if rp = chars "r" then .response 200 relData1 else .transportError,
    downloadStatus := fun _ => 404, extractOk := fun _ => true,
    initialCache := [], credsPresent := false }

/-- No command-line flags given, so `main` sets `args.all = True`. -/
def argsNone : Args := ⟨false, false, false, false, false⟩

/-- Only `--download` given. -/
def argsDownload : Args := ⟨false, true, false, false, false⟩

/-- The `latest_releases` dict built on `world1`/`config1`. -/
def m1 : List (Str × Option ReleaseData) := [(chars "r", some relData1)]

/-- A target already at the upstream version, with a matching asset. -/
def rel2 : Release :=
  { name := chars "tool", repo := chars "r", version := some (chars "v1"),
    file_list := [chars "foo:sub"] }

/-- Configuration containing only `rel2`. -/
def config2 : Config := { releases := [rel2] }

/-- Upstream release with tag equal to the recorded version. -/
def relData2 : ReleaseData :=
  { tag_name := chars "v1",
    assets := [{ name := chars "foo.bin", browser_download_url := chars "u" }] }

/-- World for the C2 counterexample: nothing changed upstream, downloads
succeed. -/
def world2 : World :=
  { http := fun rp => if rp = chars "r" then .response 200 relData2 else .transportError,
    downloadStatus := fun _ => 200, extractOk := fun _ => true,
    initialCache := [], credsPresent := false }

/-- The `latest_releases` dict built on `world2`/`config2`. -/
def m2 : List (Str × Option ReleaseData) := [(chars "r", some relData2)]

/-- The run result of an early exit: nothing changed, configuration
untouched, single nothing-to-do message. -/
def earlyResult (c : Config) : RunResult :=
  { finalReleases := c.releases, has_updates := false,
    updated_projects := [], earlyExit := true, trace := [Action.nothingToDoMsg] }

/-- `world2` with WebDAV credentials present (C6 counterexample). -/
def world6 : World := { world2 with credsPresent := true }

/-- Upstream release with a new tag and a matching asset (C4). -/
def relData4 : ReleaseData :=
  { tag_name := chars "v2",
    assets := [{ name := chars "foo.bin", browser_download_url := chars "u" }] }

/-- World for the C4 failing input: the asset download returns 404 and
the cache directory starts empty. -/
def world4 : World :=
  { http := fun rp => if rp = chars "r" then .response 200 relData4 else .transportError,
    downloadStatus := fun _ => 404, extractOk := fun _ => true,
    initialCache := [], credsPresent := false }

/-- Two targets; the first one's repository raises a transport error. -/
def relA : Release :=
  { name := chars "a-name", repo := chars "a", version := some (chars "v1"),
    file_list := [] }

/-- Second target, whose repository answers normally. -/
def relB : Release :=
  { name := chars "b-name", repo := chars "b", version := some (chars "v1"),
    file_list := [] }

/-- Configuration with the two targets `relA`, `relB`. -/
def config7 : Config := { releases := [relA, relB] }

/-- World for the C7 counterexample: repository a raises a transport
error, repository b answers 200. -/
def world7 : World :=
  { http := fun rp => if rp = chars "b" then .response 200 ⟨chars "v2", []⟩
      else .transportError,
    downloadStatus := fun _ => 200, extractOk := fun _ => true,
    initialCache := [], credsPresent := false }

/-- World for the C7 witness: every repository answers, repository a
with status 404. -/
def world7w : World :=
  { http := fun rp => if rp = chars "a" then .response 404 ⟨chars "v9", []⟩
      else .response 200 ⟨chars "v2", []⟩,
    downloadStatus := fun _ => 200, extractOk := fun _ => true,
    initialCache := [], credsPresent := false }

/-- The `latest_releases` dict built on `world7w`/`config7`. -/
def m7w : List (Str × Option ReleaseData) :=
  [(chars "a", none), (chars "b", some ⟨chars "v2", []⟩)]

/-- Assets for the C3 witness: indices 1 and 2 tie with score 2. -/
def assets3 : List Asset :=
  [ { name := chars "tool-darwin", browser_download_url := chars "u1" },
    { name := chars "tool-linux-x64", browser_download_url := chars "u2" },
    { name := chars "other-linux-x64", browser_download_url := chars "u3" } ]

/-- Keywords for the C3 witness. -/
def kw3 : List Str := [chars "linux", chars "x64"]

/-- World for the C5 witness: download succeeds, extraction fails
(corrupt archive). -/
def world5 : World :=
  { http := fun _ => .transportError, downloadStatus := fun _ => 200,
    extractOk := fun _ => false, initialCache := [], credsPresent := false }

/-- Assets for the C5 witness. -/
def assets5 : List Asset :=
  [ { name := chars "kit.zip", browser_download_url := chars "u5" } ]

/-- A concrete `latest_releases` lookup for the C8 witness. -/
def latest8 : Str → Option ReleaseData :=
  fun rp => if rp = chars "r" then some ⟨chars "v2", []⟩ else none

/-- Prefix of `arch_map` before the arm64 entry (C9 witness). -/
def archL1 : List (Str × List Str) :=
  [(chars "x64", [chars "x86_64", chars "x64", chars "amd64"])]

/-- The arm64 entry of `arch_map` (C9 witness). -/
def archP : Str × List Str :=
  (chars "arm64", [chars "aarch64", chars "arm64", chars "armv8"])

/-- Suffix of `arch_map` after the arm64 entry (C9 witness). -/
def archL2 : List (Str × List Str) :=
  [ (chars "armhf", [chars "arm", chars "armv7", chars "armv6"]),
    (chars "x86",   [chars "i386", chars "i686"]),
    (chars "riscv", [chars "riscv64"]),
    (chars "ppc64", [chars "ppc64le", chars "powerpc64le"]),
    (chars "s390",  [chars "s390x"]) ]

/-- Assets for the C10 witness. -/
def assets10 : List Asset :=
  [ { name := chars "f", browser_download_url := chars "u" } ]

/-- Keyword list containing the empty string (C10 witness), as produced
by `"".split(",")`. -/
def keywords10 : List Str := [[]]

/- ### Helper lemmas -/

theorem isSubOf_nil (s : Str) : isSubOf [] s = true := by
  cases s <;> rfl

theorem one_le_countP {α : Type} (p : α → Bool) :
    ∀ (l : List α) (a : α), a ∈ l → p a = true → 1 ≤ l.countP p := by
  intro l
  induction l with
  | nil => intro a ha; cases ha
  | cons b t ih =>
    intro a ha hp
    rcases List.mem_cons.mp ha with h | h
    · subst h
      simp [List.countP_cons, hp]
    · have := ih a h hp
      simp only [List.countP_cons]
      omega

theorem find?_split {α : Type} (p : α → Bool) :
    ∀ (l : List α) (a : α), l.find? p = some a →
      p a = true ∧ ∃ l1 l2, l = l1 ++ a :: l2 ∧ ∀ b ∈ l1, p b = false := by
  intro l
  induction l with
  | nil => intro a h; cases h
  | cons b t ih =>
    intro a h
    by_cases hb : p b = true
    · rw [List.find?_cons_of_pos _ hb] at h
      cases h
      exact ⟨hb, [], t, rfl, by intro x hx; cases hx⟩
    · have hb' : p b = false := by
        cases hpb : p b
        · rfl
        · exact absurd hpb hb
      rw [List.find?_cons_of_neg _ (by simp [hb'])] at h
      obtain ⟨hpa, l1, l2, hsplit, hall⟩ := ih a h
      refine ⟨hpa, b :: l1, l2, by rw [hsplit]; rfl, ?_⟩
      intro x hx
      rcases List.mem_cons.mp hx with h | h
      · subst h; exact hb'
      · exact hall x h

theorem find?_isSome_of_mem {α : Type} (p : α → Bool) :
    ∀ (l : List α) (a : α), a ∈ l → p a = true → (l.find? p).isSome = true := by
  intro l
  induction l with
  | nil => intro a ha; cases ha
  | cons b t ih =>
    intro a ha hp
    by_cases hb : p b = true
    · rw [List.find?_cons_of_pos _ hb]; rfl
    · rw [List.find?_cons_of_neg _ (by simpa using hb)]
      rcases List.mem_cons.mp ha with h | h
      · subst h; exact absurd hp hb
      · exact ih a h hp

theorem score_le_max (kw : List Str) :
    ∀ (l : List Asset) (a : Asset), a ∈ l →
      matchScore kw a.name ≤ maxScoreOf kw l := by
  intro l
  induction l with
  | nil => intro a ha; cases ha
  | cons b t ih =>
    intro a ha
    rcases List.mem_cons.mp ha with h | h
    · subst h
      exact Nat.le_max_left _ _
    · exact Nat.le_trans (ih a h) (Nat.le_max_right _ _)

theorem exists_max (kw : List Str) :
    ∀ (l : List Asset), l ≠ [] →
      ∃ a ∈ l, matchScore kw a.name = maxScoreOf kw l := by
  intro l
  induction l with
  | nil => intro h; exact absurd rfl h
  | cons b t ih =>
    intro _
    by_cases ht : t = []
    · subst ht
      exact ⟨b, List.mem_cons_self b [], by simp [maxScoreOf]⟩
    · obtain ⟨a, ha, hsc⟩ := ih ht
      by_cases hcmp : maxScoreOf kw t ≤ matchScore kw b.name
      · refine ⟨b, List.mem_cons_self b t, ?_⟩
        simp [maxScoreOf, Nat.max_eq_left hcmp]
      · refine ⟨a, List.mem_cons_of_mem b ha, ?_⟩
        rw [hsc]
        simp only [maxScoreOf]
        omega

theorem fbmAux_eq (kw : List Str) :
    ∀ (l : List Asset) (best : Option Asset) (s : Nat),
      fbmAux kw l best s =
        if maxScoreOf kw l ≤ s then best
        else l.find? (fun a => decide (maxScoreOf kw l ≤ matchScore kw a.name)) := by
  intro l
  induction l with
  | nil =>
    intro best s
    simp [fbmAux, maxScoreOf]
  | cons a rest ih =>
    intro best s
    have hmax : maxScoreOf kw (a :: rest) =
        max (matchScore kw a.name) (maxScoreOf kw rest) := rfl
    by_cases h1 : s < matchScore kw a.name
    · rw [fbmAux, if_pos h1, ih, hmax]
      by_cases h2 : maxScoreOf kw rest ≤ matchScore kw a.name
      · rw [if_pos h2, Nat.max_eq_left h2, if_neg (by omega)]
        rw [List.find?_cons_of_pos _ (by simp)]
      · have h2' : matchScore kw a.name ≤ maxScoreOf kw rest := by omega
        rw [if_neg h2, Nat.max_eq_right h2', if_neg (by omega)]
        rw [List.find?_cons_of_neg _ (by simp; omega)]
    · rw [fbmAux, if_neg h1, ih, hmax]
      by_cases h3 : maxScoreOf kw rest ≤ s
      · rw [if_pos h3, if_pos (by omega)]
      · have h4 : matchScore kw a.name ≤ maxScoreOf kw rest := by omega
        rw [if_neg h3, Nat.max_eq_right h4, if_neg (by omega)]
        rw [List.find?_cons_of_neg _ (by simp; omega)]

theorem find_best_match_eq (assets : List Asset) (kw : List Str) :
    find_best_match assets kw =
      if maxScoreOf kw assets ≤ 0 then none
      else assets.find? (fun a => decide (maxScoreOf kw assets ≤ matchScore kw a.name)) :=
  fbmAux_eq kw assets none 0

theorem getLatestAux_dict (w : World) :
    ∀ (rels : List Release) (m : List (Str × Option ReleaseData)) (acts : List Action),
      getLatestAux w rels = .ok (m, acts) →
      ∀ rel ∈ rels, dictGet m rel.repo = fetchVal w rel.repo := by
  intro rels
  induction rels with
  | nil => intro m acts _ rel hrel; cases hrel
  | cons r0 rest ih =>
    intro m acts h rel hrel
    rw [getLatestAux] at h
    cases hh : w.http r0.repo with
    | transportError => rw [hh] at h; cases h
    | response s d =>
      rw [hh] at h
      cases hrest : getLatestAux w rest with
      | error e => rw [hrest] at h; cases h
      | ok p =>
        obtain ⟨m1, acts1⟩ := p
        rw [hrest] at h
        dsimp only at h
        by_cases hs : s = 200
        · rw [if_pos hs] at h
          cases h
          rcases List.mem_cons.mp hrel with heq | hmem
          · subst heq
            simp [dictGet, fetchVal, hh, hs]
          · by_cases hr : r0.repo = rel.repo
            · rw [← hr]
              simp [dictGet, fetchVal, hh, hs]
            · have := ih m1 _ hrest rel hmem
              simpa [dictGet, hr] using this
        · rw [if_neg hs] at h
          cases h
          rcases List.mem_cons.mp hrel with heq | hmem
          · subst heq
            simp [dictGet, fetchVal, hh, hs]
          · by_cases hr : r0.repo = rel.repo
            · rw [← hr]
              simp [dictGet, fetchVal, hh, hs]
            · have := ih m1 _ hrest rel hmem
              simpa [dictGet, hr] using this

theorem getLatestAux_acts_shape (w : World) :
    ∀ (rels : List Release) (m : List (Str × Option ReleaseData)) (acts : List Action),
      getLatestAux w rels = .ok (m, acts) →
      ∀ act ∈ acts, isFetchAct act = true := by
  intro rels
  induction rels with
  | nil => intro m acts h act hact; cases h; cases hact
  | cons r0 rest ih =>
    intro m acts h act hact
    rw [getLatestAux] at h
    cases hh : w.http r0.repo with
    | transportError => rw [hh] at h; cases h
    | response s d =>
      rw [hh] at h
      cases hrest : getLatestAux w rest with
      | error e => rw [hrest] at h; cases h
      | ok p =>
        obtain ⟨m1, acts1⟩ := p
        rw [hrest] at h
        dsimp only at h
        by_cases hs : s = 200
        · rw [if_pos hs] at h
          cases h
          exact ih m1 _ hrest act hact
        · rw [if_neg hs] at h
          cases h
          rcases List.mem_cons.mp hact with heq | hmem
          · subst heq; rfl
          · exact ih m1 _ hrest act hmem

theorem getLatestAux_failMsg (w : World) :
    ∀ (rels : List Release) (m : List (Str × Option ReleaseData)) (acts : List Action),
      getLatestAux w rels = .ok (m, acts) →
      ∀ rel ∈ rels, ∀ s d, w.http rel.repo = .response s d → s ≠ 200 →
        Action.fetchFailedMsg rel.repo ∈ acts := by
  intro rels
  induction rels with
  | nil => intro m acts _ rel hrel; cases hrel
  | cons r0 rest ih =>
    intro m acts h rel hrel s d hresp hs
    rw [getLatestAux] at h
    cases hh : w.http r0.repo with
    | transportError => rw [hh] at h; cases h
    | response s0 d0 =>
      rw [hh] at h
      cases hrest : getLatestAux w rest with
      | error e => rw [hrest] at h; cases h
      | ok p =>
        obtain ⟨m1, acts1⟩ := p
        rw [hrest] at h
        dsimp only at h
        rcases List.mem_cons.mp hrel with heq | hmem
        · subst heq
          rw [hresp] at hh
          cases hh
          rw [if_neg hs] at h
          cases h
          exact List.mem_cons_self _ _
        · have hmem2 := ih m1 _ hrest rel hmem s d hresp hs
          by_cases hs0 : s0 = 200
          · rw [if_pos hs0] at h; cases h; exact hmem2
          · rw [if_neg hs0] at h; cases h
            exact List.mem_cons_of_mem _ hmem2

theorem getLatestAux_upToDate (w : World) :
    ∀ (rels : List Release),
      (∀ rel ∈ rels, ∃ d, w.http rel.repo = .response 200 d) →
      ∃ m, getLatestAux w rels = .ok (m, []) := by
  intro rels
  induction rels with
  | nil => intro _; exact ⟨[], rfl⟩
  | cons r0 rest ih =>
    intro hall
    obtain ⟨d, hd⟩ := hall r0 (List.mem_cons_self _ _)
    obtain ⟨m, hm⟩ := ih (fun rel hrel => hall rel (List.mem_cons_of_mem _ hrel))
    refine ⟨(r0.repo, some d) :: m, ?_⟩
    rw [getLatestAux, hd, hm]
    simp

theorem checkAux_fst (latest : Str → Option ReleaseData) (u : Bool) :
    ∀ (rels : List Release),
      (checkAux latest u rels).1 = rels.map (fun r => (checkOne latest u r).1) := by
  intro rels
  induction rels with
  | nil => rfl
  | cons r0 rest ih => simp [checkAux, ih]

theorem checkAux_no_updates (latest : Str → Option ReleaseData) (u : Bool) :
    ∀ (rels : List Release),
      (∀ rel ∈ rels, checkOne latest u rel = (rel, false)) →
      checkAux latest u rels = (rels, false, []) := by
  intro rels
  induction rels with
  | nil => intro _; rfl
  | cons r0 rest ih =>
    intro hall
    have h0 := hall r0 (List.mem_cons_self _ _)
    have ht := ih (fun rel hrel => hall rel (List.mem_cons_of_mem _ hrel))
    simp [checkAux, h0, ht]

theorem checkOne_upToDate (latest : Str → Option ReleaseData) (u : Bool)
    (rel : Release) (d : ReleaseData) (h : latest rel.repo = some d)
    (hv : rel.version = some d.tag_name) : checkOne latest u rel = (rel, false) := by
  simp [checkOne, h, hv, versionDiffers]

theorem upToDate_spec (w : World) (c : Config) (hup : upToDateB w c = true) :
    ∀ rel ∈ c.releases,
      ∃ d, w.http rel.repo = .response 200 d ∧ rel.version = some d.tag_name := by
  intro rel hrel
  have h := List.all_eq_true.mp hup rel hrel
  cases hh : w.http rel.repo with
  | transportError => rw [hh] at h; cases h
  | response s d =>
    rw [hh] at h
    simp only [Bool.and_eq_true, decide_eq_true_eq] at h
    exact ⟨d, by rw [h.1], h.2⟩

theorem processEntry_acts_shape (w : World) (relName : Str) (assets : List Asset)
    (cache : List Str) (entry : Str) (c2 : List Str) (acts : List Action)
    (h : processEntry w relName assets cache entry = .ok (c2, acts)) :
    ∀ act ∈ acts, isProcessAct act = true := by
  intro act hact
  rw [processEntry] at h
  cases hsp : pySplit ':' entry with
  | nil => rw [hsp] at h; cases h
  | cons k1 t1 =>
    cases t1 with
    | nil => rw [hsp] at h; cases h
    | cons k2 t2 =>
      cases t2 with
      | cons k3 t3 => rw [hsp] at h; cases h
      | nil =>
        rw [hsp] at h
        dsimp only at h
        cases hfb : find_best_match assets ((pySplit ',' k1).map lowerStr) with
        | none =>
          rw [hfb] at h
          cases h
          rcases List.mem_cons.mp hact with heq | hmem
          · subst heq; rfl
          · cases hmem
        | some best =>
          rw [hfb] at h
          dsimp only at h
          by_cases hmem : best.name ∈ (download_file w best.browser_download_url best.name cache).1
          · rw [if_pos hmem] at h
            cases h
            rcases List.mem_cons.mp hact with heq | hmem2
            · subst heq
              simp only [download_file]
              by_cases hdl : w.downloadStatus best.browser_download_url = 200
              · rw [if_pos hdl]; rfl
              · rw [if_neg hdl]; rfl
            · rcases List.mem_cons.mp hmem2 with heq | hmem3
              · subst heq; rfl
              · cases hmem3
          · rw [if_neg hmem] at h
            cases h

theorem processEntries_acts_shape (w : World) (relName : Str) (assets : List Asset) :
    ∀ (es : List Str) (cache c2 : List Str) (acts : List Action),
      processEntries w relName assets cache es = .ok (c2, acts) →
      ∀ act ∈ acts, isProcessAct act = true := by
  intro es
  induction es with
  | nil => intro cache c2 acts h act hact; cases h; cases hact
  | cons e rest ih =>
    intro cache c2 acts h act hact
    rw [processEntries] at h
    cases h1 : processEntry w relName assets cache e with
    | error err => rw [h1] at h; cases h
    | ok r1 =>
      rw [h1] at h
      dsimp only at h
      cases h2 : processEntries w relName assets r1.1 rest with
      | error err => rw [h2] at h; cases h
      | ok r2 =>
        rw [h2] at h
        cases h
        rcases List.mem_append.mp hact with hm | hm
        · exact processEntry_acts_shape w relName assets cache e r1.1 r1.2 (by rw [h1]) act hm
        · exact ih r1.1 r2.1 r2.2 (by rw [h2]) act hm

theorem processReleasesAux_acts_shape (w : World) (latest : Str → Option ReleaseData) :
    ∀ (rels : List Release) (cache c2 : List Str) (acts : List Action),
      processReleasesAux w latest cache rels = .ok (c2, acts) →
      ∀ act ∈ acts, isProcessAct act = true := by
  intro rels
  induction rels with
  | nil => intro cache c2 acts h act hact; cases h; cases hact
  | cons rel rest ih =>
    intro cache c2 acts h act hact
    rw [processReleasesAux] at h
    cases h1 : processRelease w latest cache rel with
    | error err => rw [h1] at h; cases h
    | ok r1 =>
      rw [h1] at h
      dsimp only at h
      cases h2 : processReleasesAux w latest r1.1 rest with
      | error err => rw [h2] at h; cases h
      | ok r2 =>
        rw [h2] at h
        cases h
        rcases List.mem_append.mp hact with hm | hm
        · rw [processRelease] at h1
          cases hl : latest rel.repo with
          | none => rw [hl] at h1; cases h1; cases hm
          | some d =>
            rw [hl] at h1
            exact processEntries_acts_shape w rel.name d.assets rel.file_list cache r1.1 r1.2 h1 act hm
        · exact ih r1.1 r2.1 r2.2 (by rw [h2]) act hm

theorem not_mem_of_shape {p : Action → Bool} {l : List Action}
    (hl : ∀ act ∈ l, p act = true) {act : Action} (hact : p act = false) :
    act ∉ l := by
  intro hmem
  rw [hl act hmem] at hact
  cases hact

theorem mainRun_after (w : World) (c : Config) (a : Args)
    (m : List (Str × Option ReleaseData)) (facts : List Action)
    (hget : get_latest_releases w c = .ok (m, facts)) :
    mainRun w c a = runAfterFetch w c (effectiveArgs a) m facts := by
  unfold mainRun
  rw [hget]

theorem runAfterFetch_cases (w : World) (c : Config) (args : Args)
    (m : List (Str × Option ReleaseData)) (facts : List Action) (r : RunResult)
    (cr : CheckResult)
    (hcr : cr = check_and_update_versions (dictGet m) (args.update_config || args.all) c)
    (h : runAfterFetch w c args m facts = .ok r) :
    r.finalReleases = cr.releases ∧ r.has_updates = cr.has_updates ∧
    r.updated_projects = cr.updated_projects ∧
    ((r.earlyExit = true ∧ cr.has_updates = false ∧ args.force = false ∧
        args.all = false ∧
        r.trace = facts ++ cr.actions ++ [Action.nothingToDoMsg]) ∨
      (r.earlyExit = false ∧
        (cr.has_updates = true ∨ args.force = true ∨ args.all = true) ∧
        ∃ dl : List Str × List Action,
          (if args.download || args.all then
              process_releases w (dictGet m) w.initialCache { releases := cr.releases }
            else .ok (w.initialCache, [])) = .ok dl ∧
          r.trace = (facts ++ cr.actions ++
              (if !cr.has_updates then [Action.proceedAnywayMsg] else [])) ++ dl.2 ++
            (if args.upload || args.all then
              (if w.credsPresent then [Action.uploadDir] else [Action.credsMissingMsg])
            else []))) := by
  subst hcr
  unfold runAfterFetch at h
  dsimp only at h
  by_cases hcond :
      (!(check_and_update_versions (dictGet m) (args.update_config || args.all) c).has_updates
        && !(args.force || args.all)) = true
  · rw [if_pos hcond] at h
    cases h
    simp only [Bool.and_eq_true, Bool.not_eq_true'] at hcond
    obtain ⟨hhas, hforceall⟩ := hcond
    have hforce : args.force = false := by
      cases hf : args.force
      · rfl
      · rw [hf] at hforceall; simp at hforceall
    have hall : args.all = false := by
      cases hf : args.all
      · rfl
      · rw [hf] at hforceall; simp [hf] at hforceall
    exact ⟨rfl, rfl, rfl, Or.inl ⟨rfl, hhas, hforce, hall, rfl⟩⟩
  · rw [if_neg hcond] at h
    cases hP : (if args.download || args.all then
        process_releases w (dictGet m) w.initialCache
          { releases := (check_and_update_versions (dictGet m)
              (args.update_config || args.all) c).releases }
      else .ok (w.initialCache, [])) with
    | error e => rw [hP] at h; cases h
    | ok dl =>
      rw [hP] at h
      dsimp only at h
      cases h
      refine ⟨rfl, rfl, rfl, Or.inr ⟨rfl, ?_, dl, rfl, rfl⟩⟩
      simp only [Bool.and_eq_true, Bool.not_eq_true', not_and] at hcond
      by_cases hforce : args.force = true
      · exact Or.inr (Or.inl hforce)
      by_cases hall : args.all = true
      · exact Or.inr (Or.inr hall)
      left
      simp only [Bool.not_eq_true] at hforce hall
      cases hb : (check_and_update_versions (dictGet m)
          (args.update_config || args.all) c).has_updates
      · exfalso
        apply hcond hb
        rw [hforce, hall]
        rfl
      · rfl

theorem archLookup_mem (fn : Str) :
    ∀ tbl : List (Str × List Str),
      archLookup fn tbl = chars "default" ∨ archLookup fn tbl ∈ tbl.map Prod.fst := by
  intro tbl
  induction tbl with
  | nil => exact Or.inl rfl
  | cons p rest ih =>
    by_cases h : archMatches fn p = true
    · right
      simp only [archLookup]
      rw [if_pos h]
      simp
    · simp only [archLookup]
      rw [if_neg h]
      rcases ih with h1 | h1
      · exact Or.inl h1
      · right
        simp [h1]

theorem archLookup_default (fn : Str) :
    ∀ tbl : List (Str × List Str),
      (∀ q ∈ tbl, archMatches fn q = false) → archLookup fn tbl = chars "default" := by
  intro tbl
  induction tbl with
  | nil => intro _; rfl
  | cons p rest ih =>
    intro hall
    have hp : archMatches fn p = false := hall p (List.mem_cons_self _ _)
    simp only [archLookup]
    rw [if_neg (by simp [hp])]
    exact ih (fun q hq => hall q (List.mem_cons_of_mem _ hq))

theorem archLookup_first (fn : Str) :
    ∀ (l1 : List (Str × List Str)) (p : Str × List Str) (l2 : List (Str × List Str)),
      (∀ q ∈ l1, archMatches fn q = false) → archMatches fn p = true →
      archLookup fn (l1 ++ p :: l2) = p.1 := by
  intro l1
  induction l1 with
  | nil =>
    intro p l2 _ hp
    simp only [List.nil_append, archLookup]
    rw [if_pos hp]
  | cons q rest ih =>
    intro p l2 hall hp
    have hq : archMatches fn q = false := hall q (List.mem_cons_self _ _)
    simp only [List.cons_append, archLookup]
    rw [if_neg (by simp [hq])]
    exact ih p l2 (fun x hx => hall x (List.mem_cons_of_mem _ hx)) hp

/-- Claim C3 (amended).  `find_best_match` scores an asset by the number
of keywords that are substrings of the lowercased filename (the keyword
itself is not lowercased, so the matching is case-insensitive exactly
when the keywords are lowercase, as the caller guarantees by lowercasing
them first).  It returns `none` exactly when no asset has a strictly
positive score; otherwise it returns the earliest-indexed asset
attaining the maximum score, so a later asset with an equal score never
replaces an earlier one. -/
theorem find_best_match_characterization (assets : List Asset) (keywords : List Str) :
    (find_best_match assets keywords = none ↔
      ∀ a ∈ assets, matchScore keywords a.name = 0) ∧
    (∀ a, find_best_match assets keywords = some a →
      a ∈ assets ∧ 0 < matchScore keywords a.name ∧
      (∀ b ∈ assets, matchScore keywords b.name ≤ matchScore keywords a.name) ∧
      ∃ l1 l2, assets = l1 ++ a :: l2 ∧
        ∀ b ∈ l1, matchScore keywords b.name < matchScore keywords a.name) := by
  have hfb := find_best_match_eq assets keywords
  constructor
  · constructor
    · intro hnone a ha
      by_contra hnz
      have hpos : 0 < matchScore keywords a.name := Nat.pos_of_ne_zero hnz
      have hmax : 0 < maxScoreOf keywords assets :=
        Nat.lt_of_lt_of_le hpos (score_le_max keywords assets a ha)
      rw [if_neg (by omega)] at hfb
      obtain ⟨a0, ha0, hsc0⟩ := exists_max keywords assets
        (by intro hnil; rw [hnil] at ha; cases ha)
      have hsome := find?_isSome_of_mem
        (fun b => decide (maxScoreOf keywords assets ≤ matchScore keywords b.name))
        assets a0 ha0 (by simp [hsc0])
      rw [hnone] at hfb
      rw [← hfb] at hsome
      simp at hsome
    · intro hall
      by_cases hN : assets = []
      · rw [hN]; rfl
      · obtain ⟨a0, ha0, hsc0⟩ := exists_max keywords assets hN
        have hz : maxScoreOf keywords assets = 0 := by
          rw [← hsc0]; exact hall a0 ha0
        rw [hfb, if_pos (by omega)]
  · intro a hsome
    rw [hfb] at hsome
    by_cases hM : maxScoreOf keywords assets ≤ 0
    · rw [if_pos hM] at hsome; cases hsome
    · rw [if_neg hM] at hsome
      obtain ⟨hpa, l1, l2, hsplit, hearlier⟩ := find?_split _ assets a hsome
      have hamem : a ∈ assets := by
        rw [hsplit]
        exact List.mem_append_right _ (List.mem_cons_self _ _)
      have hale : matchScore keywords a.name ≤ maxScoreOf keywords assets :=
        score_le_max keywords assets a hamem
      have hage : maxScoreOf keywords assets ≤ matchScore keywords a.name := by
        simpa using hpa
      have haeq : matchScore keywords a.name = maxScoreOf keywords assets :=
        Nat.le_antisymm hale hage
      refine ⟨hamem, by omega, ?_, l1, l2, hsplit, ?_⟩
      · intro b hb
        rw [haeq]
        exact score_le_max keywords assets b hb
      · intro b hb
        have hblt : ¬ maxScoreOf keywords assets ≤ matchScore keywords b.name := by
          simpa using hearlier b hb
        rw [haeq]
        omega

/-- Claim C3, counterexample to the claim as stated: with keyword
`"ARM"` and asset filename `"arm"`, the case-insensitive score promised
by the claim is positive (so the claim demands this asset be returned),
but `find_best_match` lowercases only the filename, scores 0, and
returns `none`. -/
theorem find_best_match_not_case_insensitive :
    find_best_match [{ name := chars "arm", browser_download_url := chars "u" }]
      [chars "ARM"] = none ∧
    0 < specCiScore [chars "ARM"] (chars "arm") := by
  exact ⟨by rfl, by decide⟩

/-- Claim C3, witness: on `assets3`/`kw3` the matcher returns the asset
at index 1 (score 2), not the equal-scoring later asset at index 2. -/
theorem find_best_match_characterization_witness :
    ({ name := chars "tool-linux-x64", browser_download_url := chars "u2" } : Asset) ∈ assets3 ∧
    0 < matchScore kw3 (chars "tool-linux-x64") ∧
    (∀ b ∈ assets3, matchScore kw3 b.name ≤ matchScore kw3 (chars "tool-linux-x64")) ∧
    ∃ l1 l2, assets3 = l1 ++
        ({ name := chars "tool-linux-x64", browser_download_url := chars "u2" } : Asset) :: l2 ∧
      ∀ b ∈ l1, matchScore kw3 b.name < matchScore kw3 (chars "tool-linux-x64") :=
  (find_best_match_characterization assets3 kw3).2
    { name := chars "tool-linux-x64", browser_download_url := chars "u2" } (by rfl)

/-- Claim C9: `get_architecture_name` returns the first canonical key,
in table order, whose alias list contains a substring of the filename,
and the sentinel `"default"` when no alias matches; the result is always
one of the canonical keys or the sentinel.  The classifier is a pure
function of the filename, so it is deterministic and independent of call
order. -/
theorem get_architecture_name_first_match (file_name : Str) :
    (get_architecture_name file_name = chars "default" ∨
      get_architecture_name file_name ∈ arch_map.map Prod.fst) ∧
    ((∀ q ∈ arch_map, archMatches file_name q = false) →
      get_architecture_name file_name = chars "default") ∧
    (∀ (l1 : List (Str × List Str)) (p : Str × List Str) (l2 : List (Str × List Str)),
      arch_map = l1 ++ p :: l2 →
      (∀ q ∈ l1, archMatches file_name q = false) → archMatches file_name p = true →
      get_architecture_name file_name = p.1) := by
  refine ⟨archLookup_mem file_name arch_map, archLookup_default file_name arch_map, ?_⟩
  intro l1 p l2 heq hall hp
  unfold get_architecture_name
  rw [heq]
  exact archLookup_first file_name l1 p l2 hall hp

/-- Claim C9, witness: filename `"aarch64"` skips the x64 entry (no
alias matches) and classifies as `"arm64"` via the second table entry. -/
theorem get_architecture_name_first_match_witness :
    get_architecture_name (chars "aarch64") = chars "arm64" :=
  (get_architecture_name_first_match (chars "aarch64")).2.2 archL1 archP archL2
    (by rfl) (by decide) (by decide)

/-- Claim C10: if the keyword list contains the empty string (as
produced by splitting an empty or trailing-comma keyword field), every
asset scores at least 1 because the empty string is a substring of every
filename, so `find_best_match` on a non-empty asset list never returns
`none`. -/
theorem empty_keyword_always_matches (assets : List Asset) (keywords : List Str)
    (h1 : ([] : Str) ∈ keywords) (h2 : assets ≠ []) :
    (find_best_match assets keywords).isSome = true ∧
    ∀ a ∈ assets, 1 ≤ matchScore keywords a.name := by
  have hsc : ∀ a : Asset, 1 ≤ matchScore keywords a.name := by
    intro a
    exact one_le_countP _ keywords [] h1 (isSubOf_nil _)
  constructor
  · obtain ⟨a0, ha0, hsc0⟩ := exists_max keywords assets h2
    have h1' := hsc a0
    rw [find_best_match_eq, if_neg (by omega)]
    exact find?_isSome_of_mem _ assets a0 ha0 (by simp [hsc0])
  · intro a _
    exact hsc a

/-- Claim C10, witness: a single asset and the keyword list produced by
splitting an empty keyword field. -/
theorem empty_keyword_always_matches_witness :
    (find_best_match assets10 keywords10).isSome = true :=
  (empty_keyword_always_matches assets10 keywords10 (by decide) (by decide)).1

/-- Claim C8: the update decision taken by `check_and_update_versions`
for a fetched release is `UpdateAvailable` (the release is counted in
`updated_projects` and `has_updates`) exactly when the latest tag and
the recorded version differ as plain strings, and a missing recorded
version (Python `None`) is unconditionally treated as an update. -/
theorem update_decision_exact_string (latest : Str → Option ReleaseData) (u : Bool)
    (rel : Release) (d : ReleaseData) (h : latest rel.repo = some d) :
    ((checkOne latest u rel).2 = true ↔ rel.version ≠ some d.tag_name) ∧
    (rel.version = none → (checkOne latest u rel).2 = true) := by
  cases hv : rel.version with
  | none =>
    constructor
    · simp [checkOne, h, hv, versionDiffers]
    · intro _
      simp [checkOne, h, hv, versionDiffers]
  | some v =>
    constructor
    · by_cases hd : d.tag_name = v
      · simp [checkOne, h, hv, versionDiffers, hd]
      · simp only [checkOne, h, hv, versionDiffers]
        rw [if_pos (by simp [hd])]
        simp
        intro hcontra
        exact hd hcontra.symm
    · intro hnone
      cases hnone

/-- Claim C8, witness: recorded version v1 against latest tag v2 is an
update; the decision agrees with string inequality. -/
theorem update_decision_exact_string_witness :
    ((checkOne latest8 true rel1).2 = true ↔
      rel1.version ≠ some (ReleaseData.tag_name ⟨chars "v2", []⟩)) ∧
    (rel1.version = none → (checkOne latest8 true rel1).2 = true) :=
  update_decision_exact_string latest8 true rel1 ⟨chars "v2", []⟩ (by rfl)

/-- Claim C5: for an asset whose download succeeded (status 200, so the
file was staged in the cache), the per-entry processing always runs the
extract-or-copy step and then removes the staged file, and it returns
normally whatever the extract outcome `w.extractOk` is — a corrupt or
unreadable archive is caught inside `extract_file` (flag `false` in the
recorded action), does not abort the run, and the staged file is still
removed afterwards. -/
theorem staged_file_removed (w : World) (relName : Str) (assets : List Asset)
    (cache : List Str) (entry kw suffix : Str) (best : Asset)
    (h1 : pySplit ':' entry = [kw, suffix])
    (h2 : find_best_match assets ((pySplit ',' kw).map lowerStr) = some best)
    (h3 : w.downloadStatus best.browser_download_url = 200) :
    processEntry w relName assets cache entry =
      .ok (cacheRemove best.name (cacheAdd best.name cache),
           [Action.download best.browser_download_url 200,
            Action.extract best.name (chars "bin/" ++ suffix) (w.extractOk best.name)]) ∧
    best.name ∉ cacheRemove best.name (cacheAdd best.name cache) := by
  have hmemadd : best.name ∈ cacheAdd best.name cache := by
    by_cases h : best.name ∈ cache
    · simp [cacheAdd, h]
    · simp [cacheAdd, h]
  constructor
  · rw [processEntry, h1]
    dsimp only
    rw [h2]
    dsimp only
    simp only [download_file]
    rw [if_pos h3]
    dsimp only
    rw [if_pos hmemadd]
    simp only [extract_file]
    simp [hmemadd]
  · simp [cacheRemove, List.mem_filter]

/-- Claim C5, witness: a zip asset whose download succeeds but whose
extraction fails (corrupt archive); the staged file is still removed and
processing returns normally. -/
theorem staged_file_removed_witness :
    processEntry world5 (chars "t") assets5 [] (chars "kit:dest") =
      .ok (cacheRemove (chars "kit.zip") (cacheAdd (chars "kit.zip") []),
           [Action.download (chars "u5") 200,
            Action.extract (chars "kit.zip") (chars "bin/" ++ chars "dest")
              (world5.extractOk (chars "kit.zip"))]) ∧
    chars "kit.zip" ∉ cacheRemove (chars "kit.zip") (cacheAdd (chars "kit.zip") []) :=
  staged_file_removed world5 (chars "t") assets5 [] (chars "kit:dest")
    (chars "kit") (chars "dest")
    { name := chars "kit.zip", browser_download_url := chars "u5" }
    (by rfl) (by rfl) (by rfl)

/-- Claim C4 is a code bug: when the matched asset's download fails with
a non-success status and the cache directory does not already hold a
file of that name, `download_file` stages nothing (and raises nothing),
`extract_file` swallows its own failure, but the unconditional
`temp_file.unlink()` then raises `FileNotFoundError`, which propagates
through `process_releases` and out of `main` (whose handler re-raises) —
the whole run aborts instead of only this asset.  The second conjunct
shows the failed download indeed staged no file. -/
theorem failed_download_crashes_run :
    mainRun world4 config2 argsNone = .error PyError.fileNotFound ∧
    download_file world4 (chars "u") (chars "foo.bin") [] =
      ([], Action.download (chars "u") 404) := by
  exact ⟨by rfl, by rfl⟩

/-- Claim C7 (amended): provided the fetch loop completes (no transport
exception — every repository answers with some HTTP status), a target
whose response has a non-success status is logged with a fetch-failure
message, is recorded as `None` in the dict, is treated as having no
update available (`checkOne` leaves its version unchanged and reports no
update), and contributes no downloads (`processRelease` skips it,
returning an unchanged cache and an empty action list); the loop having
completed, all remaining targets were fetched and are processed
normally.  A transport-level exception, by contrast, aborts the run (see
the counterexample). -/
theorem non_success_fetch_skips_target (w : World) (c : Config) (rel : Release)
    (s : Nat) (d : ReleaseData) (u : Bool) (cache : List Str)
    (m : List (Str × Option ReleaseData)) (facts : List Action)
    (hget : get_latest_releases w c = .ok (m, facts))
    (hmem : rel ∈ c.releases)
    (hfail : w.http rel.repo = .response s d) (hs : s ≠ 200) :
    Action.fetchFailedMsg rel.repo ∈ facts ∧
    dictGet m rel.repo = none ∧
    checkOne (dictGet m) u rel = (rel, false) ∧
    processRelease w (dictGet m) cache rel = .ok (cache, []) := by
  have hdict : dictGet m rel.repo = none := by
    rw [getLatestAux_dict w c.releases m facts hget rel hmem]
    simp [fetchVal, hfail, hs]
  refine ⟨getLatestAux_failMsg w c.releases m facts hget rel hmem s d hfail hs,
    hdict, ?_, ?_⟩
  · simp [checkOne, hdict]
  · simp [processRelease, hdict]

/-- Claim C7, counterexample to the claim as stated: a transport error
(a `requests` exception, as opposed to a non-success status code) while
fetching the first target's metadata is not caught anywhere; the run
aborts and the remaining target is never processed. -/
theorem transport_error_aborts_run :
    mainRun world7 config7 argsNone = .error PyError.transport := by
  rfl

/-- Claim C7, witness: repository a answers 404 while repository b
answers 200; the failure is logged, target a is treated as having no
update and no downloads, and the fetch loop completed for both. -/
theorem non_success_fetch_skips_target_witness :
    Action.fetchFailedMsg (chars "a") ∈ [Action.fetchFailedMsg (chars "a")] ∧
    dictGet m7w (chars "a") = none ∧
    checkOne (dictGet m7w) true relA = (relA, false) ∧
    processRelease world7w (dictGet m7w) [] relA = .ok ([], []) :=
  non_success_fetch_skips_target world7w config7 relA 404 ⟨chars "v9", []⟩ true []
    m7w [Action.fetchFailedMsg (chars "a")] (by rfl) (by decide) (by rfl) (by decide)

theorem dl_shape (w : World) (latest : Str → Option ReleaseData) (cache : List Str)
    (c2 : Config) (b : Bool) (dl : List Str × List Action)
    (hdl : (if b then process_releases w latest cache c2 else .ok (cache, [])) = .ok dl) :
    ∀ act ∈ dl.2, isProcessAct act = true := by
  cases b
  · rw [if_neg (by simp)] at hdl
    obtain ⟨dc, dacts⟩ := dl
    cases hdl
    intro act hact
    cases hact
  · rw [if_pos rfl] at hdl
    exact processReleasesAux_acts_shape w latest c2.releases cache dl.1 dl.2 hdl

/-- Claim C1 (amended): a target's recorded version is decided and
written by the version-check stage alone, which runs before any
materialization is attempted: a run that returns normally ends with
exactly the versions computed by `checkOne` from the fetched tags — the
version advances whenever the fetched tag differs from the recorded one
and the update flag is in effect, and stays put when the fetch stored
`None` — independently of whether any of the target's FileSpecs
materialized (the download stage never touches the version fields, so a
materialization failure neither prevents nor rolls back the update). -/
theorem version_update_independent_of_materialization
    (w : World) (c : Config) (a : Args) (m : List (Str × Option ReleaseData))
    (facts : List Action) (r : RunResult) (u : Bool)
    (hget : get_latest_releases w c = .ok (m, facts))
    (hu : u = ((effectiveArgs a).update_config || (effectiveArgs a).all))
    (hrun : mainRun w c a = .ok r) :
    r.finalReleases = c.releases.map (fun rel => (checkOne (dictGet m) u rel).1) ∧
    (∀ (rel : Release) (d : ReleaseData), dictGet m rel.repo = some d →
      (checkOne (dictGet m) u rel).1.version =
        if u && versionDiffers rel.version d.tag_name then some d.tag_name
        else rel.version) ∧
    (∀ rel : Release, dictGet m rel.repo = none →
      (checkOne (dictGet m) u rel).1 = rel) := by
  subst hu
  refine ⟨?_, ?_, ?_⟩
  · rw [mainRun_after w c a m facts hget] at hrun
    obtain ⟨hfin, _, _, _⟩ := runAfterFetch_cases w c (effectiveArgs a) m facts r
      (check_and_update_versions (dictGet m)
        ((effectiveArgs a).update_config || (effectiveArgs a).all) c) rfl hrun
    rw [hfin]
    exact checkAux_fst (dictGet m) _ c.releases
  · intro rel d hd
    by_cases hdiff : versionDiffers rel.version d.tag_name = true
    · by_cases hub : ((effectiveArgs a).update_config || (effectiveArgs a).all) = true
      · simp [checkOne, hd, hdiff, hub]
      · simp only [Bool.not_eq_true] at hub
        simp [checkOne, hd, hdiff, hub]
    · simp only [Bool.not_eq_true] at hdiff
      simp [checkOne, hd, hdiff]
  · intro rel hd
    simp [checkOne, hd]

/-- Claim C1, counterexample to the claim as stated: on `world1` the
target's single FileSpec fails to materialize (no asset matches the
keyword, so the trace holds the no-match message and zero download or
extract actions), yet after the run the recorded version has advanced
from v1 to v2 — the version was committed by the check stage before
materialization was attempted. -/
theorem version_advances_despite_failed_materialization :
    (mainRun world1 config1 argsNone).toOption.map (fun r =>
      (r.finalReleases.map Release.version,
       r.trace.countP (fun act => match act with
         | Action.download _ _ => true
         | Action.extract _ _ _ => true
         | _ => false),
       decide (Action.noMatchMsg (chars "tool") ∈ r.trace))) =
      some ([some (chars "v2")], 0, true) := by
  rfl

/-- Claim C1, witness: the amended theorem applied to the counterexample
run — the final release list is exactly the check-stage output. -/
theorem version_update_independent_of_materialization_witness :
    [{ rel1 with version := some (chars "v2") }] =
      config1.releases.map (fun rel => (checkOne (dictGet m1) true rel).1) :=
  (version_update_independent_of_materialization world1 config1 argsNone m1 []
    { finalReleases := [{ rel1 with version := some (chars "v2") }],
      has_updates := true, updated_projects := [chars "tool"], earlyExit := false,
      trace := [Action.writeConfig, Action.noMatchMsg (chars "tool"),
        Action.credsMissingMsg] }
    true (by rfl) (by rfl) (by rfl)).1

/-- Claim C2 (amended): when every target's upstream tag equals its
recorded version, the configuration file is never rewritten (no
`writeConfig` in the trace of any normally-returning run, whatever the
flags); and provided neither `--force` nor `--all` is in effect (recall
`--all` is also set by default when no flag at all is given), the run
exits early: its whole trace is the single nothing-to-do message — in
particular no downloads and no extraction — and the configuration is
unchanged.  Under `--force` or `--all`, however, the download stage
still runs for every target (see the counterexample). -/
theorem up_to_date_run_behavior (w : World) (c : Config) (a : Args)
    (hup : upToDateB w c = true) :
    (∀ r : RunResult, mainRun w c a = .ok r → Action.writeConfig ∉ r.trace) ∧
    ((effectiveArgs a).all = false → (effectiveArgs a).force = false →
      mainRun w c a = .ok (earlyResult c)) := by
  have hall200 : ∀ rel ∈ c.releases, ∃ d, w.http rel.repo = .response 200 d :=
    fun rel hrel => (upToDate_spec w c hup rel hrel).imp (fun d hd => hd.1)
  obtain ⟨m, hm⟩ := getLatestAux_upToDate w c.releases hall200
  have hget : get_latest_releases w c = .ok (m, []) := hm
  have hdict := getLatestAux_dict w c.releases m [] hm
  have hone : ∀ (u : Bool), ∀ rel ∈ c.releases,
      checkOne (dictGet m) u rel = (rel, false) := by
    intro u rel hrel
    obtain ⟨d, hd, hv⟩ := upToDate_spec w c hup rel hrel
    have hdg : dictGet m rel.repo = some d := by
      rw [hdict rel hrel]
      simp [fetchVal, hd]
    exact checkOne_upToDate (dictGet m) u rel d hdg hv
  have hcheck : ∀ u : Bool, check_and_update_versions (dictGet m) u c =
      { releases := c.releases, has_updates := false, updated_projects := [],
        actions := [] } := by
    intro u
    have hca := checkAux_no_updates (dictGet m) u c.releases (hone u)
    simp [check_and_update_versions, hca]
  constructor
  · intro r hrun
    rw [mainRun_after w c a m [] hget] at hrun
    obtain ⟨_, _, _, hdisj⟩ := runAfterFetch_cases w c (effectiveArgs a) m [] r _
      (hcheck _).symm hrun
    rcases hdisj with ⟨_, _, _, _, htr⟩ | ⟨_, _, dl, hdl, htr⟩
    · rw [htr]
      simp
    · have hdlshape : ∀ act ∈ dl.2, isProcessAct act = true :=
        dl_shape w (dictGet m) w.initialCache _ _ dl hdl
      have hnup : Action.writeConfig ∉ dl.2 :=
        not_mem_of_shape hdlshape (by rfl)
      rw [htr]
      simp [hnup]
      intro _
      split <;> simp
  · intro hallf hforcef
    rw [mainRun_after w c a m [] hget]
    simp only [runAfterFetch, hcheck]
    rw [hallf, hforcef]
    rfl

/-- Claim C2, counterexample to the claim as stated: `world2` is fully
up to date (`upToDateB` holds), yet a run with the default flag set
(`--all` implied) performs one download and one extraction — the
download stage ignores the updated-projects list and processes every
target.  The configuration-rewrite third of the claim does hold:
`has_updates` is false, so no rewrite happens. -/
theorem up_to_date_run_still_downloads :
    upToDateB world2 config2 = true ∧
    (mainRun world2 config2 argsNone).toOption.map (fun r =>
      (r.has_updates,
       r.trace.countP (fun act => match act with
         | Action.download _ _ => true
         | _ => false),
       r.trace.countP (fun act => match act with
         | Action.extract _ _ _ => true
         | _ => false))) =
      some (false, 1, 1) := by
  exact ⟨by rfl, by rfl⟩

/-- Claim C2, witness: the amended theorem applied with only
`--download` given — the up-to-date run exits early with the single
nothing-to-do message. -/
theorem up_to_date_run_behavior_witness :
    mainRun world2 config2 argsDownload = .ok (earlyResult config2) :=
  (up_to_date_run_behavior world2 config2 argsDownload (by rfl)).2 (by rfl) (by rfl)

/-- Claim C6 (amended): the run exits early with the nothing-to-do
message exactly when no target had a version update detected and neither
`--force` nor `--all` is in effect (the no-flag invocation sets `--all`
by default, which also forces execution); on early exit no download is
attempted and remote sync is not invoked; and remote sync (the WebDAV
upload) is invoked exactly when the run did not exit early, the upload
stage was selected (`--upload` or `--all`), and the credentials are
present — so sync can run with zero updated targets whenever `--force`
or `--all` forces execution past the early exit. -/
theorem early_exit_and_sync_conditions (w : World) (c : Config) (a : Args)
    (m : List (Str × Option ReleaseData)) (facts : List Action) (r : RunResult)
    (cr : CheckResult)
    (hget : get_latest_releases w c = .ok (m, facts))
    (hcr : cr = check_and_update_versions (dictGet m)
      ((effectiveArgs a).update_config || (effectiveArgs a).all) c)
    (hrun : mainRun w c a = .ok r) :
    (r.earlyExit = true ↔ cr.has_updates = false ∧ (effectiveArgs a).force = false ∧
      (effectiveArgs a).all = false) ∧
    (r.earlyExit = true → Action.nothingToDoMsg ∈ r.trace ∧
      (∀ u0 s0, Action.download u0 s0 ∉ r.trace) ∧ Action.uploadDir ∉ r.trace) ∧
    (Action.uploadDir ∈ r.trace ↔ r.earlyExit = false ∧
      ((effectiveArgs a).upload || (effectiveArgs a).all) = true ∧
      w.credsPresent = true) := by
  rw [mainRun_after w c a m facts hget] at hrun
  obtain ⟨_, _, _, hdisj⟩ := runAfterFetch_cases w c (effectiveArgs a) m facts r cr hcr hrun
  have hfacts : ∀ act ∈ facts, isFetchAct act = true :=
    getLatestAux_acts_shape w c.releases m facts hget
  have hfnd : ∀ u0 s0, Action.download u0 s0 ∉ facts := by
    intro u0 s0
    exact not_mem_of_shape hfacts (by rfl)
  have hfnu : Action.uploadDir ∉ facts := not_mem_of_shape hfacts (by rfl)
  have hcracts : cr.actions = [] ∨ cr.actions = [Action.writeConfig] := by
    rw [hcr]
    unfold check_and_update_versions
    dsimp only
    split
    · exact Or.inr rfl
    · exact Or.inl rfl
  rcases hdisj with ⟨he, hhasf, hforcef, hallf, htr⟩ | ⟨he, hcond, dl, hdl, htr⟩
  · have hndl : ∀ u0 s0, Action.download u0 s0 ∉ r.trace := by
      intro u0 s0
      rw [htr]
      rcases hcracts with hca | hca <;> rw [hca] <;> simp [hfnd u0 s0]
    have hnup : Action.uploadDir ∉ r.trace := by
      rw [htr]
      rcases hcracts with hca | hca <;> rw [hca] <;> simp [hfnu]
    refine ⟨?_, ?_, ?_⟩
    · simp [he, hhasf, hforcef, hallf]
    · intro _
      refine ⟨?_, hndl, hnup⟩
      rw [htr]
      simp
    · exact iff_of_false hnup (by simp [he])
  · have hdlshape : ∀ act ∈ dl.2, isProcessAct act = true :=
      dl_shape w (dictGet m) w.initialCache _ _ dl hdl
    have hnu2 : Action.uploadDir ∉ dl.2 := not_mem_of_shape hdlshape (by rfl)
    have hnA : Action.uploadDir ∉ facts ++ cr.actions ++
        (if (!cr.has_updates) = true then [Action.proceedAnywayMsg] else []) := by
      intro hx
      rcases List.mem_append.mp hx with h1 | h1
      · rcases List.mem_append.mp h1 with h2 | h2
        · exact hfnu h2
        · rcases hcracts with hca | hca
          · rw [hca] at h2
            cases h2
          · rw [hca] at h2
            simp at h2
      · revert h1
        split
        · simp
        · simp
    refine ⟨?_, ?_, ?_⟩
    · rw [he]
      constructor
      · intro hc
        cases hc
      · rintro ⟨h1, h2, h3⟩
        rcases hcond with hc | hc | hc
        · rw [h1] at hc
          cases hc
        · rw [h2] at hc
          cases hc
        · rw [h3] at hc
          cases hc
    · intro h'
      rw [he] at h'
      cases h'
    · rw [htr, he]
      constructor
      · intro hx
        rcases List.mem_append.mp hx with h1 | h1
        · rcases List.mem_append.mp h1 with h2 | h2
          · exact absurd h2 hnA
          · exact absurd h2 hnu2
        · by_cases hup2 : ((effectiveArgs a).upload || (effectiveArgs a).all) = true
          · rw [if_pos hup2] at h1
            by_cases hcred : w.credsPresent = true
            · exact ⟨rfl, hup2, hcred⟩
            · rw [if_neg hcred] at h1
              simp at h1
          · rw [if_neg hup2] at h1
            cases h1
      · rintro ⟨_, hup2, hcred⟩
        simp [List.mem_append, hup2, hcred]

/-- Claim C6, counterexample to the claim as stated: with no flags given
(`--all` implied) and nothing changed upstream, zero targets had a
successful version update and no `--force` was given, yet the run does
not exit early, prints no nothing-to-do message, and still invokes the
remote sync. -/
theorem default_args_sync_without_updates :
    (mainRun world6 config2 argsNone).toOption.map (fun r =>
      (r.earlyExit, r.updated_projects, decide (Action.uploadDir ∈ r.trace),
       decide (Action.nothingToDoMsg ∈ r.trace))) =
      some (false, [], true, false) := by
  rfl

/-- Claim C6, witness: with only `--download` and no updates, the run
does exit early; the amended theorem's first clause instantiated. -/
theorem early_exit_and_sync_conditions_witness :
    (earlyResult config2).earlyExit = true ↔
      (check_and_update_versions (dictGet m2)
        ((effectiveArgs argsDownload).update_config ||
          (effectiveArgs argsDownload).all) config2).has_updates = false ∧
      (effectiveArgs argsDownload).force = false ∧
      (effectiveArgs argsDownload).all = false :=
  (early_exit_and_sync_conditions world2 config2 argsDownload m2 []
    (earlyResult config2)
    (check_and_update_versions (dictGet m2)
      ((effectiveArgs argsDownload).update_config ||
        (effectiveArgs argsDownload).all) config2)
    (by rfl) rfl (by rfl)).1

end GithubAutoDownload
